import Mathlib

/-!
Shallow embedding of the `trust` crate (Iterated Prisoner's Dilemma simulator):
payoff matrices (`matrices.rs`), scoring machines (`machines.rs`), the built-in
strategies (`players.rs`, `worm_bools.rs`), the 1v1 match driver and the arena
(`matches.rs`), the genetic selection rule (`genetics.rs`) and the error type
(`errors.rs`).  Rust `usize` indices become `Nat`, `isize` rewards become `Int`,
`f32` probabilities become `ℚ`, and the ambient RNG draws of the feature-gated
`MachineRandomizer` are made explicit arguments.  A Rust panic is modelled as
`none` of an `Option` result.
-/

/-- Payoff table, from `matrices.rs` (`GameMatrix<T>`): one reward pair per
joint cooperation decision. -/
structure GameMatrix (T : Type) where
  cc : T × T
  cd : T × T
  dc : T × T
  dd : T × T
deriving DecidableEq

/-- The `Default for GameMatrix<isize>` instance: classic Prisoner's Dilemma. -/
def GameMatrix.default : GameMatrix Int :=
  { cc := (2, 2), cd := (-1, 3), dc := (3, -1), dd := (0, 0) }

/-- Lookup from `GameMatrix::get_for_consents`. -/
def GameMatrix.get_for_consents {T : Type} (m : GameMatrix T) (consents : Bool × Bool) : T × T :=
  match consents with
  | (true, true) => m.cc
  | (true, false) => m.cd
  | (false, true) => m.dc
  | (false, false) => m.dd

/-- Deterministic scoring machine from `machines.rs` (`Machine<T>`), at `T = Int`. -/
structure Machine where
  matrix : GameMatrix Int
  scores : Int × Int
deriving DecidableEq

/-- The `Default for Machine<isize>` instance (default matrix, zero scores). -/
def defaultMachine : Machine :=
  { matrix := GameMatrix.default, scores := (0, 0) }

/-- From `MachineTrait::play_off_record` for `Machine`: pure matrix lookup. -/
def Machine.play_off_record (m : Machine) (consents : Bool × Bool) : Int × Int :=
  m.matrix.get_for_consents consents

/-- From `MachineTrait::record_scores` for `Machine`: add rewards to the running totals. -/
def Machine.record_scores (m : Machine) (last_rewards : Int × Int) : Machine :=
  { m with scores := (m.scores.1 + last_rewards.1, m.scores.2 + last_rewards.2) }

/-- From `MachineTrait::reset_scores` for `Machine`. -/
def Machine.reset_scores (m : Machine) : Machine :=
  { m with scores := (0, 0) }

/-- The provided `MachineTrait::play`: play off record, then record the rewards. -/
def Machine.play (m : Machine) (consents : Bool × Bool) : Machine × (Int × Int) :=
  let last_rewards := m.play_off_record consents
  (m.record_scores last_rewards, last_rewards)

/-- From `worm_bools.rs`, `RiseOnlyBool::rise_if`: set the flag if the argument is
true and the flag was not yet set; the state component of the result. -/
def riseIf (b v : Bool) : Bool :=
  if !b && v then v else b

/-- The seven deterministic strategies of `players.rs`, one constructor per
struct, each carrying that struct's memory fields.  `detective` carries
`been_cheated_in_analysing`, `analysing_stage`, `analysing_strategy` and
`next_strategy`; `kindCopyCat` carries `mistakes_allowed` and `cheated_in_row`. -/
inductive Player where
  | copyCat (last_enemy_consent : Option Bool)
  | allCooperate
  | allCheat
  | grudger (been_cheated : Bool)
  | detective (been_cheated_in_analysing : Bool) (analysing_stage : Nat)
      (analysing_strategy : List Bool) (next_strategy : Bool)
  | kindCopyCat (mistakes_allowed : Nat) (cheated_in_row : Nat)
  | simpleton (next_move : Bool)
deriving DecidableEq

/-- Default `Detective` (`Detective::new(vec![true, false, true, true])`). -/
def detectiveDefault : Player :=
  Player.detective false 1 [true, false, true, true] true

/-- From each `PlayerTrait::cooperation_consent` implementation in `players.rs`. -/
def Player.cooperation_consent : Player → Bool
  | .copyCat o => o.getD true
  | .allCooperate => true
  | .allCheat => false
  | .grudger been_cheated => !been_cheated
  | .detective _ _ _ ns => ns
  | .kindCopyCat k c => decide (c ≤ k)
  | .simpleton nm => nm

/-- From each `PlayerTrait::memorize_last_game` implementation in `players.rs`
(generic over the reward type `T`, which every implementation ignores;
`AllCooperate` and `AllCheat` use the trait's default no-op). -/
def Player.memorize {T : Type} (p : Player) (last_consents : Bool × Bool)
    (_last_rewards : T × T) : Player :=
  match p with
  | .copyCat _ => .copyCat (some last_consents.2)
  | .allCooperate => .allCooperate
  | .allCheat => .allCheat
  | .grudger been_cheated => .grudger (riseIf been_cheated (!last_consents.2))
  | .detective been_cheated stage script _ns =>
    if stage < script.length then
      .detective (riseIf been_cheated (!last_consents.2)) (stage + 1) script
        (script.getD stage true)
    else
      .detective been_cheated stage script (been_cheated && last_consents.2)
  | .kindCopyCat k c =>
    if last_consents.2 then
      .kindCopyCat k 0
    else
      if c ≤ k then .kindCopyCat k (c + 1) else .kindCopyCat k c
  | .simpleton _ =>
    .simpleton (if last_consents.2 then last_consents.1 else !last_consents.1)

/-- From each `PlayerTrait::forget_games` implementation in `players.rs`
(for stateful players, reset to the default/pristine state; the `Detective`
keeps its configured script, the `KindCopyCat` its tolerance). -/
def Player.forget : Player → Player
  | .copyCat _ => .copyCat none
  | .allCooperate => .allCooperate
  | .allCheat => .allCheat
  | .grudger _ => .grudger false
  | .detective _ _ script _ => .detective false 1 script (script.headD true)
  | .kindCopyCat k _ => .kindCopyCat k 0
  | .simpleton _ => .simpleton true

/-- One round of `Match::play` from `matches.rs`: query both consents, play the
machine, then broadcast the consents and the machine's rewards to both players,
the second player receiving both pairs with components swapped. -/
def Match.play (m : Machine) (p₁ p₂ : Player) : Machine × Player × Player :=
  let last_consents := (p₁.cooperation_consent, p₂.cooperation_consent)
  let mr := m.play last_consents
  let p₂' := p₂.memorize (last_consents.2, last_consents.1) (mr.2.2, mr.2.1)
  let p₁' := p₁.memorize last_consents mr.2
  (mr.1, p₁', p₂')

/-- `MatchTrait::play_for_rounds`: repeat `Match::play` the given number of times. -/
def Match.play_rounds (rounds : Nat) (m : Machine) (p₁ p₂ : Player) :
    Machine × Player × Player :=
  match rounds with
  | 0 => (m, p₁, p₂)
  | Nat.succ k =>
    let r := Match.play m p₁ p₂
    Match.play_rounds k r.1 r.2.1 r.2.2

/-- State fold: feed a player a list of observed (consents, rewards) entries
through `memorize_last_game`. -/
def playerRun {T : Type} (p : Player) (l : List ((Bool × Bool) × (T × T))) : Player :=
  l.foldl (fun s e => s.memorize e.1 e.2) p

/-- Feed a player its own current consent together with an opponent move, as a
round of a match delivers observations (rewards fixed, they are ignored by every
deterministic player). -/
def observeOpp (p : Player) (o : Bool) : Player :=
  p.memorize (p.cooperation_consent, o) ((0 : Int), 0)

/-- Run `observeOpp` over a whole opponent move sequence. -/
def observeOppRun (p : Player) (opp : List Bool) : Player :=
  opp.foldl observeOpp p

/-- Generation-transition rule from `genetics.rs` (`GeneticStrategy`). -/
inductive GeneticStrategy where
  | keep
  | cullingElitism (to_remove : Nat) (to_add : Nat)
deriving DecidableEq

/-- `Vec::swap_remove(i)`: replace the element at `i` with the last element and
pop; `none` models the panic when `i` is out of bounds. -/
def swapRemove (l : List Nat) (i : Nat) : Option (List Nat) :=
  if i < l.length then some ((l.set i (l.getLastD 0)).dropLast) else none

/-- The `for i in 0..to_remove { sorted_types.swap_remove(i) }` loop of
`GeneticStrategy::apply_to_vec`: first argument counts remaining iterations,
second is the current index `i`. -/
def removeLoop : Nat → Nat → List Nat → Option (List Nat)
  | 0, _, l => some l
  | Nat.succ k, i, l => (swapRemove l i).bind (removeLoop k (i + 1))

/-- `GeneticStrategy::apply_to_vec` from `genetics.rs`: on the empty list return
the empty list; `Keep` returns the input; `CullingElitism` notes the last (best)
entry, clamps the removal count to the length, runs the `swap_remove` loop and
appends the copies of the best entry.  `none` models a panic. -/
def applyToVec (s : GeneticStrategy) (sorted_types : List Nat) : Option (List Nat) :=
  if sorted_types.isEmpty then some [] else
  match s with
  | .keep => some sorted_types
  | .cullingElitism to_remove to_add =>
    let best := sorted_types.getLastD 0
    let r := if sorted_types.length ≤ to_remove then sorted_types.length else to_remove
    (removeLoop r 0 sorted_types).map (fun l => l ++ List.replicate to_add best)

/-- The single failure kind of `errors.rs` (`ArenaError`). -/
inductive ArenaError where
  | unknownPlayer
deriving DecidableEq

/-- The `Arena` struct of `matches.rs` (at `T = Int`, the deterministic machine). -/
structure Arena where
  machine : Machine
  player_constructors : List Player
  players : List Nat
  scores : List Int
  rounds : Nat
  strategy : GeneticStrategy
deriving DecidableEq

/-- `Arena::new` from `matches.rs`: error out if some population entry is not a
valid catalog index, otherwise store the catalog with every prototype passed
through `forget_games`, an empty (default) score vector, and the other fields. -/
def Arena.new (machine : Machine) (player_constructors : List Player)
    (players : List Nat) (rounds : Nat) (strategy : GeneticStrategy) :
    Except ArenaError Arena :=
  if players.any (fun i => player_constructors.length ≤ i) then
    Except.error ArenaError.unknownPlayer
  else
    Except.ok
      { machine := machine
        player_constructors := player_constructors.map Player.forget
        players := players
        scores := []
        rounds := rounds
        strategy := strategy }

/-- Side swap of a payoff matrix: exchange the two players' roles (swap both
reward pairs and exchange the CD and DC rows).  Used to state that `Match::play`
broadcasts each round from each side's own perspective. -/
def GameMatrix.transpose (m : GameMatrix Int) : GameMatrix Int :=
  { cc := (m.cc.2, m.cc.1), cd := (m.dc.2, m.dc.1),
    dc := (m.cd.2, m.cd.1), dd := (m.dd.2, m.dd.1) }

/-- The feature-gated noisy machine of `machines.rs` (`MachineRandomizer<T>`),
with the `f32` chance fields modelled as rationals. -/
structure MachineRandomizer where
  base : Machine
  consent_falsify_chance : ℚ × ℚ
  random_consenter : ℚ × ℚ
deriving DecidableEq

/-- The consent perturbation inside `MachineRandomizer::play_off_record`, with
the two ambient `rand::thread_rng` draws passed explicitly as `chances`: a
positive consent survives iff its draw exceeds the falsify chance, a negative
consent flips to positive iff its draw is at most the random-consenter chance. -/
def MachineRandomizer.effective_consents (m : MachineRandomizer) (chances : ℚ × ℚ)
    (consents : Bool × Bool) : Bool × Bool :=
  (if consents.1 then decide (chances.1 > m.consent_falsify_chance.1)
    else decide (chances.1 ≤ m.random_consenter.1),
   if consents.2 then decide (chances.2 > m.consent_falsify_chance.2)
    else decide (chances.2 ≤ m.random_consenter.2))

/-- `MachineRandomizer::play_off_record`: perturb the consents, then delegate to
the base machine's lookup. -/
def MachineRandomizer.play_off_record (m : MachineRandomizer) (chances : ℚ × ℚ)
    (consents : Bool × Bool) : Int × Int :=
  m.base.play_off_record (m.effective_consents chances consents)

/-- The provided `MachineTrait::play` for `MachineRandomizer`: play off record,
then record the rewards (delegated to the base machine). -/
def MachineRandomizer.play (m : MachineRandomizer) (chances : ℚ × ℚ)
    (consents : Bool × Bool) : MachineRandomizer × (Int × Int) :=
  let last_rewards := m.play_off_record chances consents
  ({ m with base := m.base.record_scores last_rewards }, last_rewards)

/-- `Match::play` driven by a `MachineRandomizer` (the generic `Match` with
`M = MachineRandomizer`): identical wiring to the deterministic case — the
STATED consents are broadcast to both players, while only the rewards come from
the machine. -/
def MatchR.play (m : MachineRandomizer) (chances : ℚ × ℚ) (p₁ p₂ : Player) :
    MachineRandomizer × Player × Player :=
  let last_consents := (p₁.cooperation_consent, p₂.cooperation_consent)
  let mr := m.play chances last_consents
  let p₂' := p₂.memorize (last_consents.2, last_consents.1) (mr.2.2, mr.2.1)
  let p₁' := p₁.memorize last_consents mr.2
  (mr.1, p₁', p₂')

/-- A streak of `j` observed opponent defections (the player's own recorded
move and the rewards are irrelevant to every deterministic player). -/
def kcDefects (j : Nat) : List ((Bool × Bool) × (Int × Int)) :=
  List.replicate j ((true, false), (0, 0))

/-- Projection of `KindCopyCat::cheated_in_row` (0 for every other player). -/
def kcCounter : Player → Nat
  | .kindCopyCat _ c => c
  | _ => 0

/-- The position pairs visited by the nested `for i { for j in (i+1).. }` loops
of `Arena::play`, in iteration order. -/
def pairsList (n : Nat) : List (Nat × Nat) :=
  (List.range n).flatMap (fun i => (List.range' (i + 1) (n - (i + 1))).map (fun j => (i, j)))

/-- The `self.scores[i] += r.0; self.scores[j] += r.1` accumulation step of
`Arena::play`. -/
def bump2 (v : List Int) (i j : Nat) (r : Int × Int) : List Int :=
  let v1 := v.set i (v.getD i 0 + r.1)
  v1.set j (v1.getD j 0 + r.2)

/-- The prototype referenced by population position `i` of an arena
(`self.player_constructors[self.players[i]].clone()`). -/
def Arena.playerAt (A : Arena) (i : Nat) : Player :=
  A.player_constructors.getD (A.players.getD i 0) Player.allCooperate

/-- One pairing of `Arena::play`: reset the shared machine's running totals,
play the configured number of rounds between the two referenced prototypes and
read off the machine's recorded scores. -/
def Arena.pairScore (A : Arena) (i j : Nat) : Int × Int :=
  (Match.play_rounds A.rounds A.machine.reset_scores (A.playerAt i) (A.playerAt j)).1.scores

/-- The per-individual score vector one generation step of `Arena::play`
computes: start from an accumulator zeroed in lock-step with the population and
add each pairing's score pair at the two participating positions. -/
def Arena.playScores (A : Arena) : List Int :=
  (pairsList A.players.length).foldl
    (fun v p => bump2 v p.1 p.2 (A.pairScore p.1 p.2))
    (List.replicate A.players.length 0)

/-- Sanity: the repo's own five-round test pairings against Detective,
KindCopyCat and Simpleton reproduce the scores asserted in `matches.rs` tests. -/
example :
    (Match.play_rounds 5 defaultMachine Player.allCheat detectiveDefault).1.scores = (9, -3)
    ∧ (Match.play_rounds 5 defaultMachine (Player.copyCat none) detectiveDefault).1.scores
        = (8, 8)
    ∧ (Match.play_rounds 5 defaultMachine Player.allCheat (Player.kindCopyCat 1 0)).1.scores
        = (6, -2)
    ∧ (Match.play_rounds 5 defaultMachine Player.allCheat (Player.simpleton true)).1.scores
        = (9, -3)
    ∧ (Match.play_rounds 5 defaultMachine Player.allCooperate detectiveDefault).1.scores
        = (4, 12) := by
  decide

/-- C5: under the default payoff matrix, the five reference 5-round pairings
between freshly constructed strategies produce exactly the machine scores
stated in the specification: AllCooperate/AllCooperate (10, 10),
AllDefect/AllDefect (0, 0), AllDefect/AllCooperate (15, −5),
CopyCat/CopyCat (10, 10) and CopyCat/AllCooperate (10, 10). -/
theorem default_match_scores :
    (Match.play_rounds 5 defaultMachine Player.allCooperate Player.allCooperate).1.scores
        = (10, 10)
    ∧ (Match.play_rounds 5 defaultMachine Player.allCheat Player.allCheat).1.scores
        = (0, 0)
    ∧ (Match.play_rounds 5 defaultMachine Player.allCheat Player.allCooperate).1.scores
        = (15, -5)
    ∧ (Match.play_rounds 5 defaultMachine (Player.copyCat none) (Player.copyCat none)).1.scores
        = (10, 10)
    ∧ (Match.play_rounds 5 defaultMachine (Player.copyCat none) Player.allCooperate).1.scores
        = (10, 10) := by
  decide

/-- C1: evaluating `GeneticStrategy::apply_to_vec` at the failing input: on the
two-element population `[0, 1]` with `CullingElitism(2, 0)` the clamped removal
count is 2, and the second loop iteration calls `swap_remove(1)` on a vector of
length 1, which panics (modelled as `none`) instead of returning the size
`n - min(r, n) + a = 0` population the claim asserts. -/
theorem culling_elitism_panics :
    applyToVec (GeneticStrategy.cullingElitism 2 0) [0, 1] = none := by
  decide

/-- C4: `Arena::new` errors (with the single `UnknownPlayer` failure kind) if
and only if some population entry is at least the catalog length; on success it
returns the arena whose catalog is the input catalog with `forget_games`
applied to every prototype, an empty score vector, and the given fields; and
every error it ever returns is `UnknownPlayer`. -/
theorem arena_new_spec (m : Machine) (cs : List Player) (ps : List Nat)
    (n : Nat) (st : GeneticStrategy) :
    (Arena.new m cs ps n st = Except.error ArenaError.unknownPlayer
        ↔ ∃ i ∈ ps, cs.length ≤ i)
    ∧ ((∀ i ∈ ps, i < cs.length) →
        Arena.new m cs ps n st
          = Except.ok
              { machine := m, player_constructors := cs.map Player.forget,
                players := ps, scores := [], rounds := n, strategy := st })
    ∧ (∀ e, Arena.new m cs ps n st = Except.error e → e = ArenaError.unknownPlayer) := by
  unfold Arena.new
  by_cases h : ps.any (fun i => cs.length ≤ i)
  · rw [List.any_eq_true] at h
    simp only [List.any_eq_true]
    refine ⟨⟨fun _ => ?_, fun _ => by simp_all⟩, fun hall => ?_, fun e he => ?_⟩
    · obtain ⟨i, hi, hle⟩ := h
      exact ⟨i, hi, by simpa using hle⟩
    · obtain ⟨i, hi, hle⟩ := h
      have := hall i hi
      simp at hle
      omega
    · by_cases hc : (∃ i ∈ ps, cs.length ≤ i) <;> simp_all
  · rw [List.any_eq_true] at h
    push_neg at h
    simp only [List.any_eq_true]
    refine ⟨⟨fun hcontra => ?_, fun ⟨i, hi, hle⟩ => ?_⟩, fun _ => by simp_all, fun e he => ?_⟩
    · simp_all
    · have := h i hi
      simp at this
      omega
    · simp_all

/-- C4 witness: constructing an arena from a one-strategy catalog and the valid
population `[0]` succeeds and stores the forgotten prototype. -/
theorem arena_new_spec_witness :
    Arena.new defaultMachine [Player.copyCat (some true)] [0] 5 GeneticStrategy.keep
      = Except.ok
          { machine := defaultMachine,
            player_constructors := [Player.copyCat (some true)].map Player.forget,
            players := [0], scores := [], rounds := 5,
            strategy := GeneticStrategy.keep } :=
  (arena_new_spec defaultMachine [Player.copyCat (some true)] [0] 5
      GeneticStrategy.keep).2.1 (by decide)

/-- Helper: `rise_if` is boolean disjunction on the stored flag. -/
theorem riseIf_eq_or (b v : Bool) : riseIf b v = (b || v) := by
  cases b <;> cases v <;> rfl

/-- Helper: a list has no defection entry iff every entry is a cooperation. -/
theorem not_any_defect_eq_all {T : Type} (l : List ((Bool × Bool) × (T × T))) :
    (!(l.any (fun e => !e.1.2))) = l.all (fun e => e.1.2) := by
  induction l with
  | nil => rfl
  | cons e t ih => simp only [List.any_cons, List.all_cons, Bool.not_or, ih, Bool.not_not]

/-- Helper: running Grudger over any observation list disjoins the flag with
the presence of an observed opponent defection. -/
theorem grudger_run (b : Bool) (l : List ((Bool × Bool) × (Int × Int))) :
    playerRun (Player.grudger b) l = Player.grudger (b || l.any (fun e => !e.1.2)) := by
  induction l generalizing b with
  | nil => simp [playerRun]
  | cons e t ih =>
    have hstep : (Player.grudger b).memorize e.1 e.2 = Player.grudger (b || !e.1.2) := by
      simp [Player.memorize, riseIf_eq_or]
    calc playerRun (Player.grudger b) (e :: t)
        = playerRun ((Player.grudger b).memorize e.1 e.2) t := rfl
      _ = playerRun (Player.grudger (b || !e.1.2)) t := by rw [hstep]
      _ = Player.grudger ((b || !e.1.2) || t.any (fun x => !x.1.2)) := ih _
      _ = Player.grudger (b || (e :: t).any (fun x => !x.1.2)) := by
          rw [List.any_cons, Bool.or_assoc]

/-- C6: Grudger's been-cheated flag starts false in the pristine state that
`forget_games` produces, its consent is the negation of the flag, after any
observed round sequence the flag equals its old value OR-ed with the presence
of an observed opponent defection (so it rises at the first defection and,
being a disjunction, never falls back within a pairing no matter how often the
opponent later cooperates), and hence Grudger cooperates exactly when the flag
was clear and no opponent defection has been observed. -/
theorem grudger_monotone (b : Bool) (l : List ((Bool × Bool) × (Int × Int))) :
    Player.forget (Player.grudger b) = Player.grudger false
    ∧ (Player.grudger b).cooperation_consent = !b
    ∧ playerRun (Player.grudger b) l = Player.grudger (b || l.any (fun e => !e.1.2))
    ∧ (playerRun (Player.grudger b) l).cooperation_consent
        = (!b && l.all (fun e => e.1.2)) := by
  refine ⟨rfl, rfl, grudger_run b l, ?_⟩
  rw [grudger_run b l]
  simp only [Player.cooperation_consent, Bool.not_or, not_any_defect_eq_all]

/-- Helper: running KindCopyCat through a pure defection streak saturates the
counter at `tolerance + 1` (when the start counter is within tolerance). -/
theorem kc_run_defects (k : Nat) :
    ∀ (j c : Nat),
      playerRun (Player.kindCopyCat k c) (kcDefects j)
        = Player.kindCopyCat k (if c ≤ k then min (c + j) (k + 1) else c) := by
  intro j
  induction j with
  | zero =>
    intro c
    simp only [kcDefects, List.replicate, playerRun, List.foldl_nil]
    split
    · congr 1
      omega
    · rfl
  | succ j ih =>
    intro c
    have hstep : (Player.kindCopyCat k c).memorize (true, false) ((0 : Int), 0)
        = if c ≤ k then Player.kindCopyCat k (c + 1) else Player.kindCopyCat k c := by
      simp [Player.memorize]
    have hhead : playerRun (Player.kindCopyCat k c) (kcDefects (j + 1))
        = playerRun ((Player.kindCopyCat k c).memorize (true, false) ((0 : Int), 0))
            (kcDefects j) := rfl
    rw [hhead, hstep]
    by_cases hc : c ≤ k
    · rw [if_pos hc, ih (c + 1), if_pos hc]
      by_cases hc1 : c + 1 ≤ k
      · rw [if_pos hc1]
        congr 1
        omega
      · rw [if_neg hc1]
        congr 1
        omega
    · rw [if_neg hc, ih c, if_neg hc, if_neg hc]

/-- Helper: KindCopyCat's counter never exceeds `tolerance + 1` because the
increment is guarded by the player's own current consent. -/
theorem kc_counter_bound (l : List ((Bool × Bool) × (Int × Int))) :
    ∀ (k c : Nat), c ≤ k + 1 → kcCounter (playerRun (Player.kindCopyCat k c) l) ≤ k + 1 := by
  induction l with
  | nil =>
    intro k c h
    simpa [playerRun, kcCounter] using h
  | cons e t ih =>
    intro k c h
    have hhead : playerRun (Player.kindCopyCat k c) (e :: t)
        = playerRun ((Player.kindCopyCat k c).memorize e.1 e.2) t := rfl
    rw [hhead]
    by_cases ho : e.1.2
    · have hstep : (Player.kindCopyCat k c).memorize e.1 e.2 = Player.kindCopyCat k 0 := by
        simp [Player.memorize, ho]
      rw [hstep]
      exact ih k 0 (by omega)
    · by_cases hc : c ≤ k
      · have hstep : (Player.kindCopyCat k c).memorize e.1 e.2
            = Player.kindCopyCat k (c + 1) := by
          simp [Player.memorize, ho, hc]
        rw [hstep]
        exact ih k (c + 1) (by omega)
      · have hstep : (Player.kindCopyCat k c).memorize e.1 e.2
            = Player.kindCopyCat k c := by
          simp [Player.memorize, ho, hc]
        rw [hstep]
        exact ih k c h

/-- C7: KindCopyCat with tolerance `k`, freshly constructed, still cooperates
after a streak of up to `k` consecutive observed defections and defects exactly
once the streak reaches `k + 1`; a single observed opponent cooperation resets
the counter to 0 (so it cooperates again immediately); an observed defection
increments the counter only while the player still consents (counter within
tolerance); and the counter never exceeds `k + 1` over any observation list. -/
theorem kindcopycat_tolerance (k j c : Nat) (own : Bool) (r : Int × Int)
    (l : List ((Bool × Bool) × (Int × Int))) :
    (playerRun (Player.kindCopyCat k 0) (kcDefects j)).cooperation_consent = decide (j ≤ k)
    ∧ Player.memorize (Player.kindCopyCat k c) (own, true) r = Player.kindCopyCat k 0
    ∧ (Player.kindCopyCat k 0).cooperation_consent = true
    ∧ Player.memorize (Player.kindCopyCat k c) (own, false) r
        = Player.kindCopyCat k (if c ≤ k then c + 1 else c)
    ∧ kcCounter (playerRun (Player.kindCopyCat k 0) l) ≤ k + 1 := by
  refine ⟨?_, by simp [Player.memorize], by simp [Player.cooperation_consent], ?_, ?_⟩
  · rw [kc_run_defects k j 0, if_pos (Nat.zero_le k)]
    simp only [Player.cooperation_consent, Nat.zero_add]
    rw [decide_eq_decide]
    omega
  · simp only [Player.memorize, Bool.false_eq_true, if_false]
    split <;> rfl
  · exact kc_counter_bound l k 0 (by omega)

/-- Helper: the default Detective's state after observing the four scripted
rounds — the cheated flag only accumulates the first three opponent moves
(`rise_if` runs only while `analysing_stage < script length`, i.e. at stages 1,
2 and 3), and the fourth observation already takes the post-script branch. -/
theorem detective_first_four (a b c d : Bool) :
    observeOppRun detectiveDefault [a, b, c, d]
      = Player.detective (!a || !b || !c) 4 [true, false, true, true]
          ((!a || !b || !c) && d) := by
  cases a <;> cases b <;> cases c <;> cases d <;> decide

/-- Helper: after the script is exhausted (stage 4 of the default script), every
further observation keeps the flag and stage and sets the next move to
`flag && opponent move`. -/
theorem detective_post (rest : List Bool) :
    ∀ (ch nx : Bool),
      List.foldl observeOpp (Player.detective ch 4 [true, false, true, true] nx) rest
        = Player.detective ch 4 [true, false, true, true]
            (List.foldl (fun _ o => ch && o) nx rest) := by
  induction rest with
  | nil => intro ch nx; rfl
  | cons o t ih =>
    intro ch nx
    have hstep : observeOpp (Player.detective ch 4 [true, false, true, true] nx) o
        = Player.detective ch 4 [true, false, true, true] (ch && o) := by
      simp [observeOpp, Player.memorize]
    calc List.foldl observeOpp (Player.detective ch 4 [true, false, true, true] nx) (o :: t)
        = List.foldl observeOpp
            (observeOpp (Player.detective ch 4 [true, false, true, true] nx) o) t := rfl
      _ = List.foldl observeOpp (Player.detective ch 4 [true, false, true, true] (ch && o)) t := by
          rw [hstep]
      _ = Player.detective ch 4 [true, false, true, true]
            (List.foldl (fun _ o => ch && o) (ch && o) t) := ih ch (ch && o)
      _ = Player.detective ch 4 [true, false, true, true]
            (List.foldl (fun _ o => ch && o) nx (o :: t)) := rfl

/-- Helper: folding `fun _ o => ch && o` reads off the last opponent move. -/
theorem foldl_and_getLast (ch : Bool) :
    ∀ (rest : List Bool) (d : Bool),
      List.foldl (fun _ o => ch && o) (ch && d) rest = (ch && rest.getLastD d) := by
  intro rest
  induction rest with
  | nil => intro d; rfl
  | cons o t ih =>
    intro d
    rw [List.getLastD_cons]
    exact ih o

/-- C2 counterexample: the opponent cooperates in the first three scripted
rounds, defects in the fourth scripted round only, then cooperates in round 5.
The claim's antecedent holds (a defection occurred during the four scripted
rounds) and CopyCat would cooperate in round 6, but the Detective defects,
because the code records retaliation only during the first three scripted
rounds. -/
theorem detective_round4_defection_not_copycat :
    [true, true, true, false].any (fun o => !o) = true
    ∧ (observeOppRun (Player.copyCat none)
          [true, true, true, false, true]).cooperation_consent = true
    ∧ (observeOppRun detectiveDefault
          [true, true, true, false, true]).cooperation_consent = false := by
  decide

/-- C2 (amended): the default Detective plays its script `[C, D, C, C]` in
rounds 1–4 regardless of the opponent; from round 5 on, it repeats the
opponent's last observed move (CopyCat) if the opponent defected at least once
during the first THREE scripted rounds, and defects unconditionally otherwise —
a defection occurring only in the fourth scripted round is not recorded and
leads to the all-defect mode. -/
theorem detective_script_then_mode (a b c d : Bool) (rest : List Bool) :
    (observeOppRun detectiveDefault []).cooperation_consent = true
    ∧ (observeOppRun detectiveDefault [a]).cooperation_consent = false
    ∧ (observeOppRun detectiveDefault [a, b]).cooperation_consent = true
    ∧ (observeOppRun detectiveDefault [a, b, c]).cooperation_consent = true
    ∧ (observeOppRun detectiveDefault (a :: b :: c :: d :: rest)).cooperation_consent
        = ((!a || !b || !c) && rest.getLastD d) := by
  refine ⟨by decide, by cases a <;> decide, by cases a <;> cases b <;> decide,
    by cases a <;> cases b <;> cases c <;> decide, ?_⟩
  have hsplit : observeOppRun detectiveDefault (a :: b :: c :: d :: rest)
      = List.foldl observeOpp (observeOppRun detectiveDefault [a, b, c, d]) rest := rfl
  rw [hsplit, detective_first_four a b c d,
    detective_post rest (!a || !b || !c) ((!a || !b || !c) && d),
    foldl_and_getLast (!a || !b || !c) rest d]
  rfl

/-- Helper: every built-in strategy's `memorize_last_game` ignores the reward
argument. -/
theorem memorize_ignores_rewards {T : Type} (p : Player) (c : Bool × Bool)
    (r r' : T × T) : p.memorize c r = p.memorize c r' := by
  cases p <;> rfl

/-- Helper: two observation lists with the same decision pairs drive any
strategy through the same state trace and the same final state. -/
theorem run_ignores_rewards {T : Type} :
    ∀ (l l' : List ((Bool × Bool) × (T × T))) (p : Player),
      l.map Prod.fst = l'.map Prod.fst →
      List.scanl (fun s e => Player.memorize s e.1 e.2) p l
          = List.scanl (fun s e => Player.memorize s e.1 e.2) p l'
        ∧ playerRun p l = playerRun p l' := by
  intro l
  induction l with
  | nil =>
    intro l' p h
    have hnil : l' = [] := by
      cases l' with
      | nil => rfl
      | cons e t => simp at h
    subst hnil
    exact ⟨rfl, rfl⟩
  | cons e t ih =>
    intro l' p h
    cases l' with
    | nil => simp at h
    | cons e' t' =>
      simp only [List.map_cons, List.cons.injEq] at h
      obtain ⟨h1, h2⟩ := h
      have hm : Player.memorize p e.1 e.2 = Player.memorize p e'.1 e'.2 := by
        rw [h1]
        exact memorize_ignores_rewards p e'.1 e.2 e'.2
      obtain ⟨hs, hr⟩ := ih t' (Player.memorize p e.1 e.2) h2
      constructor
      · simp only [List.scanl_cons]
        rw [← hm]
        exact congrArg (List.cons p) hs
      · calc playerRun p (e :: t)
            = playerRun (Player.memorize p e.1 e.2) t := rfl
          _ = playerRun (Player.memorize p e.1 e.2) t' := hr
          _ = playerRun (Player.memorize p e'.1 e'.2) t' := by rw [hm]
          _ = playerRun p (e' :: t') := rfl

/-- C10: every built-in deterministic strategy ignores the rewards argument of
`memorize_last_game`: two runs fed the same sequence of observed decision pairs
and arbitrarily different reward values produce the same state after every step
(the whole `scanl` trace), the same cooperation decision at every step, and the
same final state. -/
theorem strategies_ignore_rewards {T : Type} (p : Player)
    (l l' : List ((Bool × Bool) × (T × T))) (h : l.map Prod.fst = l'.map Prod.fst) :
    List.scanl (fun s e => Player.memorize s e.1 e.2) p l
      = List.scanl (fun s e => Player.memorize s e.1 e.2) p l'
    ∧ (List.scanl (fun s e => Player.memorize s e.1 e.2) p l).map Player.cooperation_consent
      = (List.scanl (fun s e => Player.memorize s e.1 e.2) p l').map Player.cooperation_consent
    ∧ playerRun p l = playerRun p l' := by
  obtain ⟨hs, hr⟩ := run_ignores_rewards l l' p h
  exact ⟨hs, by rw [hs], hr⟩

/-- C10 witness: a Grudger fed one round with rewards (5, 7) and one with
rewards (0, 0), same decisions, evolves identically. -/
theorem strategies_ignore_rewards_witness :
    ([((true, false), ((5 : Int), 7))].map Prod.fst
        = [((true, false), ((0 : Int), 0))].map Prod.fst)
    ∧ (List.scanl (fun s e => Player.memorize s e.1 e.2) (Player.grudger false)
          [((true, false), ((5 : Int), 7))]
        = List.scanl (fun s e => Player.memorize s e.1 e.2) (Player.grudger false)
          [((true, false), ((0 : Int), 0))]
      ∧ (List.scanl (fun s e => Player.memorize s e.1 e.2) (Player.grudger false)
            [((true, false), ((5 : Int), 7))]).map Player.cooperation_consent
          = (List.scanl (fun s e => Player.memorize s e.1 e.2) (Player.grudger false)
              [((true, false), ((0 : Int), 0))]).map Player.cooperation_consent
      ∧ playerRun (Player.grudger false) [((true, false), ((5 : Int), 7))]
          = playerRun (Player.grudger false) [((true, false), ((0 : Int), 0))]) :=
  ⟨by decide, strategies_ignore_rewards (Player.grudger false) _ _ (by decide)⟩

/-- Helper: looking up swapped consents in the side-swapped matrix swaps the
reward pair. -/
theorem get_for_consents_transpose (m : GameMatrix Int) (a b : Bool) :
    m.transpose.get_for_consents (b, a)
      = ((m.get_for_consents (a, b)).2, (m.get_for_consents (a, b)).1) := by
  cases a <;> cases b <;> rfl

/-- Helper: one round of `Match::play` with the players and the matrix sides
swapped produces exactly the mirrored machine scores and the same two player
states, swapped. -/
theorem match_play_swap (M : GameMatrix Int) (s : Int × Int) (p q : Player) :
    Match.play { matrix := M.transpose, scores := (s.2, s.1) } q p
      = ({ matrix := M.transpose,
           scores := ((Match.play { matrix := M, scores := s } p q).1.scores.2,
                      (Match.play { matrix := M, scores := s } p q).1.scores.1) },
         (Match.play { matrix := M, scores := s } p q).2.2,
         (Match.play { matrix := M, scores := s } p q).2.1) := by
  simp only [Match.play, Machine.play, Machine.play_off_record, Machine.record_scores]
  rw [get_for_consents_transpose]

/-- C9: in every round, `Match::play` hands the first strategy the decisions
and rewards in (own, other) order and the second strategy the same data with
the components swapped into its own (own, other) order; consequently running a
match with the two players exchanged on the side-swapped matrix yields, for any
number of rounds, exactly the mirrored machine scores and the swapped pair of
final player states — which could not hold if either side's observation were
transposed incorrectly. -/
theorem match_play_perspective (M : GameMatrix Int) (s : Int × Int) (p q : Player)
    (n : Nat) :
    (Match.play { matrix := M, scores := s } p q).2.1
        = p.memorize (p.cooperation_consent, q.cooperation_consent)
            (M.get_for_consents (p.cooperation_consent, q.cooperation_consent))
    ∧ (Match.play { matrix := M, scores := s } p q).2.2
        = q.memorize (q.cooperation_consent, p.cooperation_consent)
            ((M.get_for_consents (p.cooperation_consent, q.cooperation_consent)).2,
             (M.get_for_consents (p.cooperation_consent, q.cooperation_consent)).1)
    ∧ Match.play_rounds n { matrix := M.transpose, scores := (s.2, s.1) } q p
        = ({ matrix := M.transpose,
             scores := ((Match.play_rounds n { matrix := M, scores := s } p q).1.scores.2,
                        (Match.play_rounds n { matrix := M, scores := s } p q).1.scores.1) },
           (Match.play_rounds n { matrix := M, scores := s } p q).2.2,
           (Match.play_rounds n { matrix := M, scores := s } p q).2.1) := by
  refine ⟨rfl, rfl, ?_⟩
  induction n generalizing s p q with
  | zero => rfl
  | succ n ihn =>
    have hL : Match.play_rounds (n + 1) { matrix := M.transpose, scores := (s.2, s.1) } q p
        = Match.play_rounds n
            (Match.play { matrix := M.transpose, scores := (s.2, s.1) } q p).1
            (Match.play { matrix := M.transpose, scores := (s.2, s.1) } q p).2.1
            (Match.play { matrix := M.transpose, scores := (s.2, s.1) } q p).2.2 := rfl
    have hR : Match.play_rounds (n + 1) { matrix := M, scores := s } p q
        = Match.play_rounds n
            (Match.play { matrix := M, scores := s } p q).1
            (Match.play { matrix := M, scores := s } p q).2.1
            (Match.play { matrix := M, scores := s } p q).2.2 := rfl
    rw [hL, hR, match_play_swap M s p q]
    exact ihn (Match.play { matrix := M, scores := s } p q).1.scores
      (Match.play { matrix := M, scores := s } p q).2.1
      (Match.play { matrix := M, scores := s } p q).2.2

/-- C3: evaluating the match wiring at the failing input.  With a
`MachineRandomizer` whose falsify chances are 1 (every positive consent is
flipped) over the default matrix, RNG draws (0, 0) and two CopyCat players:
both players request cooperation, the machine's effective (recorded) decisions
are (defect, defect) and it scores the DD rewards (0, 0), yet both players'
`memorize_last_game` receives the stated intents — each CopyCat ends up
remembering an opponent COOPERATION — contradicting the claim that strategies
observe the decisions the machine actually recorded. -/
theorem noisy_match_memorizes_intents :
    MachineRandomizer.effective_consents
        { base := defaultMachine, consent_falsify_chance := (1, 1),
          random_consenter := (0, 0) } (0, 0) (true, true) = (false, false)
    ∧ (MatchR.play
          { base := defaultMachine, consent_falsify_chance := (1, 1),
            random_consenter := (0, 0) } (0, 0)
          (Player.copyCat none) (Player.copyCat none)).2
        = (Player.copyCat (some true), Player.copyCat (some true))
    ∧ (MatchR.play
          { base := defaultMachine, consent_falsify_chance := (1, 1),
            random_consenter := (0, 0) } (0, 0)
          (Player.copyCat none) (Player.copyCat none)).1.base.scores = (0, 0) := by
  decide

/-- Helper: membership in the round-robin pair list. -/
theorem pairsList_mem (n : Nat) (p : Nat × Nat) :
    p ∈ pairsList n ↔ p.1 < p.2 ∧ p.2 < n := by
  obtain ⟨i, j⟩ := p
  simp only [pairsList, List.mem_flatMap, List.mem_map, List.mem_range, List.mem_range'_1]
  constructor
  · rintro ⟨a, ha, b, hb, heq⟩
    obtain ⟨rfl, rfl⟩ := Prod.mk.injEq a b i j ▸ heq
    simp only at *
    omega
  · rintro ⟨h1, h2⟩
    exact ⟨i, by omega, j, by omega, rfl⟩

/-- Helper: reading back a just-written cell. -/
theorem getD_set_self (v : List Int) (i : Nat) (x : Int) (h : i < v.length) :
    (v.set i x).getD i 0 = x := by
  induction v generalizing i with
  | nil => simp at h
  | cons a t ih =>
    cases i with
    | zero => rfl
    | succ i =>
      simp only [List.set, List.getD_cons_succ]
      exact ih i (by simpa using h)

/-- Helper: writing one cell leaves every other cell unchanged. -/
theorem getD_set_ne (v : List Int) (i k : Nat) (x : Int) (h : i ≠ k) :
    (v.set i x).getD k 0 = v.getD k 0 := by
  induction v generalizing i k with
  | nil => rfl
  | cons a t ih =>
    cases i with
    | zero =>
      cases k with
      | zero => exact absurd rfl h
      | succ k => rfl
    | succ i =>
      cases k with
      | zero => rfl
      | succ k =>
        simp only [List.set, List.getD_cons_succ]
        exact ih i k (by omega)

/-- Helper: adding into one cell adds to the total. -/
theorem sum_set_getD (v : List Int) (i : Nat) (x : Int) (h : i < v.length) :
    (v.set i (v.getD i 0 + x)).sum = v.sum + x := by
  induction v generalizing i with
  | nil => simp at h
  | cons a t ih =>
    cases i with
    | zero =>
      simp only [List.getD_cons_zero, List.set, List.sum_cons]
      omega
    | succ i =>
      simp only [List.getD_cons_succ, List.set, List.sum_cons]
      rw [ih i (by simpa using h)]
      omega

/-- Helper: the accumulation step preserves the accumulator length. -/
theorem bump2_length (v : List Int) (i j : Nat) (r : Int × Int) :
    (bump2 v i j r).length = v.length := by
  simp [bump2, List.length_set]

/-- Helper: the accumulation step adds both pair scores to the total. -/
theorem bump2_sum (v : List Int) (i j : Nat) (r : Int × Int)
    (hi : i < v.length) (hj : j < v.length) :
    (bump2 v i j r).sum = v.sum + r.1 + r.2 := by
  unfold bump2
  rw [sum_set_getD _ j _ (by rw [List.length_set]; exact hj), sum_set_getD _ i _ hi]

/-- Helper: what the accumulation step does to an arbitrary cell. -/
theorem bump2_getD (v : List Int) (i j : Nat) (r : Int × Int) (k : Nat)
    (hi : i < v.length) (hj : j < v.length) :
    (bump2 v i j r).getD k 0
      = v.getD k 0 + (if i = k then r.1 else 0) + (if j = k then r.2 else 0) := by
  unfold bump2
  by_cases hjk : j = k
  · subst hjk
    rw [getD_set_self _ j _ (by rw [List.length_set]; exact hj), if_pos rfl]
    by_cases hik : i = j
    · subst hik
      rw [getD_set_self _ i _ hi, if_pos rfl]
    · rw [getD_set_ne _ _ _ _ hik, if_neg hik]
      omega
  · rw [getD_set_ne _ _ _ _ hjk, if_neg hjk]
    by_cases hik : i = k
    · subst hik
      rw [getD_set_self _ i _ hi, if_pos rfl]
      omega
    · rw [getD_set_ne _ _ _ _ hik, if_neg hik]
      omega

/-- Helper: folding accumulation steps preserves length. -/
theorem foldl_bump_length (f : Nat → Nat → Int × Int) :
    ∀ (L : List (Nat × Nat)) (v : List Int),
      (L.foldl (fun v p => bump2 v p.1 p.2 (f p.1 p.2)) v).length = v.length := by
  intro L
  induction L with
  | nil => intro v; rfl
  | cons p t ih =>
    intro v
    simp only [List.foldl_cons]
    rw [ih, bump2_length]

/-- Helper: the grand total after folding over any in-bounds pair list is the
sum over the list of both components of each pair's score. -/
theorem foldl_bump_sum (f : Nat → Nat → Int × Int) :
    ∀ (L : List (Nat × Nat)) (v : List Int),
      (∀ p ∈ L, p.1 < v.length ∧ p.2 < v.length) →
      (L.foldl (fun v p => bump2 v p.1 p.2 (f p.1 p.2)) v).sum
        = v.sum + (L.map (fun p => (f p.1 p.2).1 + (f p.1 p.2).2)).sum := by
  intro L
  induction L with
  | nil => intro v _; simp
  | cons p t ih =>
    intro v h
    have hp := h p (List.mem_cons_self p t)
    simp only [List.foldl_cons, List.map_cons, List.sum_cons]
    rw [ih (bump2 v p.1 p.2 (f p.1 p.2))
      (fun q hq => by rw [bump2_length]; exact h q (List.mem_cons_of_mem p hq))]
    rw [bump2_sum v p.1 p.2 _ hp.1 hp.2]
    omega

/-- Helper: the value of one accumulator cell after folding over any in-bounds
pair list: the start value plus the first components of the pairs whose first
position is the cell plus the second components of the pairs whose second
position is the cell. -/
theorem foldl_bump_getD (f : Nat → Nat → Int × Int) :
    ∀ (L : List (Nat × Nat)) (v : List Int) (k : Nat),
      (∀ p ∈ L, p.1 < v.length ∧ p.2 < v.length) →
      (L.foldl (fun v p => bump2 v p.1 p.2 (f p.1 p.2)) v).getD k 0
        = v.getD k 0
          + ((L.filter (fun p => p.1 == k)).map (fun p => (f p.1 p.2).1)).sum
          + ((L.filter (fun p => p.2 == k)).map (fun p => (f p.1 p.2).2)).sum := by
  intro L
  induction L with
  | nil => intro v k _; simp
  | cons p t ih =>
    intro v k h
    have hp := h p (List.mem_cons_self p t)
    simp only [List.foldl_cons, List.filter_cons]
    rw [ih (bump2 v p.1 p.2 (f p.1 p.2)) k
      (fun q hq => by rw [bump2_length]; exact h q (List.mem_cons_of_mem p hq))]
    rw [bump2_getD v p.1 p.2 _ k hp.1 hp.2]
    by_cases h1 : p.1 = k <;> by_cases h2 : p.2 = k <;>
      simp only [h1, h2, beq_iff_eq, if_pos, if_neg, beq_self_eq_true, if_true,
        List.map_cons, List.sum_cons] <;> simp [h1, h2] <;> omega

/-- Helper: summing a map of successors. -/
theorem sum_map_add_one (l : List Nat) (g : Nat → Nat) :
    (l.map (fun a => g a + 1)).sum = (l.map g).sum + l.length := by
  induction l with
  | nil => rfl
  | cons a t ih =>
    simp only [List.map_cons, List.sum_cons, List.length_cons, ih]
    omega

/-- Helper: the inner range lengths of the round-robin pair list sum to a
binomial coefficient. -/
theorem sum_range_sub (n : Nat) :
    ((List.range n).map (fun i => n - (i + 1))).sum = n.choose 2 := by
  induction n with
  | zero => rfl
  | succ n ih =>
    rw [List.range_succ, List.map_append, List.sum_append]
    simp only [List.map_cons, List.map_nil, List.sum_cons, List.sum_nil]
    have hc : ∀ i ∈ List.range n, n + 1 - (i + 1) = (n - (i + 1)) + 1 := by
      intro i hi
      rw [List.mem_range] at hi
      omega
    rw [List.map_congr_left hc, sum_map_add_one (List.range n) (fun i => n - (i + 1)), ih,
      List.length_range]
    have hch : (n + 1).choose 2 = n.choose 1 + n.choose 2 := Nat.choose_succ_succ n 1
    rw [Nat.choose_one_right] at hch
    omega

/-- Helper: the round-robin pair list has the triangular length. -/
theorem pairsList_length (n : Nat) : (pairsList n).length = n * (n - 1) / 2 := by
  rw [← Nat.choose_two_right, ← sum_range_sub n]
  simp only [pairsList, List.length_flatMap]
  refine congrArg List.sum (List.map_congr_left ?_)
  intro i _
  simp [List.length_range']

/-- Helper: the zeroed accumulator reads 0 everywhere. -/
theorem replicate_zero_getD (n k : Nat) : (List.replicate n (0 : Int)).getD k 0 = 0 := by
  induction n generalizing k with
  | zero => rfl
  | succ n ih =>
    cases k with
    | zero => rfl
    | succ k => exact ih k

/-- C8: after the scoring phase of one `Arena::play` generation step, the sum
of the per-individual scores equals the sum over the n·(n−1)/2 round-robin
pairs (i, j), i < j, of that pairing's two machine scores; the pair list has
exactly the triangular length and never pairs a position with itself; and each
individual's accumulated score (over the zeroed accumulator) is exactly the sum
of the machine-recorded scores of the pairings that individual participated in. -/
theorem arena_generation_scores (A : Arena) :
    A.playScores.sum
        = ((pairsList A.players.length).map
            (fun p => (A.pairScore p.1 p.2).1 + (A.pairScore p.1 p.2).2)).sum
    ∧ (pairsList A.players.length).length
        = A.players.length * (A.players.length - 1) / 2
    ∧ (pairsList A.players.length).all (fun p => p.1 != p.2) = true
    ∧ ∀ k : Nat, A.playScores.getD k 0
        = (((pairsList A.players.length).filter (fun p => p.1 == k)).map
            (fun p => (A.pairScore p.1 p.2).1)).sum
          + (((pairsList A.players.length).filter (fun p => p.2 == k)).map
            (fun p => (A.pairScore p.1 p.2).2)).sum := by
  have hbound : ∀ p ∈ pairsList A.players.length,
      p.1 < (List.replicate A.players.length (0 : Int)).length
        ∧ p.2 < (List.replicate A.players.length (0 : Int)).length := by
    intro p hp
    have := (pairsList_mem A.players.length p).1 hp
    rw [List.length_replicate]
    omega
  refine ⟨?_, pairsList_length _, ?_, ?_⟩
  · unfold Arena.playScores
    rw [foldl_bump_sum A.pairScore (pairsList A.players.length)
      (List.replicate A.players.length 0) hbound]
    simp [List.sum_replicate]
  · rw [List.all_eq_true]
    intro p hp
    have := (pairsList_mem A.players.length p).1 hp
    simp only [bne_iff_ne, ne_eq]
    omega
  · intro k
    unfold Arena.playScores
    rw [foldl_bump_getD A.pairScore (pairsList A.players.length)
      (List.replicate A.players.length 0) k hbound]
    rw [replicate_zero_getD]
    omega
